import Mathlib

/-!
Verification of the beartype DOOR comparator core and the PEP 484/585
generic-resolution utilities.

The development shallowly embeds the two source components:

* `src/beartype/door/_cls/doorsub.py` — the subscripted type-hint wrapper
  hierarchy (`_TypeHintSubscripted`, `_TypeHintOriginIsinstanceable` and its
  three arity-fixed leaves), with its `_is_args_ignorable`, `_is_le_branch`,
  `_is_equal` and `_make_args` members.
* `src/beartype/_util/hint/pep/proposal/pep484585/utilpepgeneric.py` — the
  generic pseudo-superclass extractor and the origin-type getters.

Python classes are modelled as natural numbers; the `typing.Any` singleton is
the distinguished code `anyOrigin`. Python's `issubclass` is an explicit
boolean relation passed as a parameter. Collaborator callables that live in
modules outside the excerpt (the PEP 484/585 base getters, the raw origin
getter) are universally quantified function parameters. Exceptions are
modelled with `Except`, carrying the caller-supplied exception class and the
formatted message.
-/

namespace Beartype

/-- Origin classes are modelled as natural numbers; `anyOrigin` is the code of
the universal accept-anything marker `typing.Any`, against which
`_is_args_ignorable` compares each child wrapper's origin by identity. -/
def anyOrigin : Nat := 0

/-- A DOOR type-hint wrapper, the comparator's unit of work: `variant` tags the
concrete wrapper class (with `1`, `2`, `3` reserved for the arity-fixed leaves
`_TypeHintOriginIsinstanceableArgs1/2/3`), `sign` is the structural sign
`_hint_sign`, `origin` is the resolved origin class `_origin`, and `args` is
the ordered child-wrapper sequence `_args_wrapped_tuple`. -/
inductive DoorHint : Type where
  | mk (variant : Nat) (sign : Nat) (origin : Nat) (args : List DoorHint)

/-- The concrete wrapper class of a wrapper, as compared by the source's
`isinstance(branch, type(self))` test. -/
def DoorHint.variant : DoorHint → Nat
  | .mk v _ _ _ => v

/-- The structural sign tag `_hint_sign` of a wrapper. -/
def DoorHint.sign : DoorHint → Nat
  | .mk _ s _ _ => s

/-- The resolved origin class `_origin` of a wrapper. -/
def DoorHint.origin : DoorHint → Nat
  | .mk _ _ o _ => o

/-- The ordered child-wrapper sequence `_args_wrapped_tuple` of a wrapper. -/
def DoorHint.args : DoorHint → List DoorHint
  | .mk _ _ _ a => a

/-- Translation of `_TypeHintSubscripted._is_args_ignorable`: true only if
every child wrapper's origin is the `typing.Any` marker. -/
def isArgsIgnorable (h : DoorHint) : Bool :=
  h.args.all fun c => c.origin == anyOrigin

mutual

/-- Translation of `_TypeHintSubscripted._is_le_branch` over an explicit
subclass relation `sub` standing for Python's `issubclass`. If the branch's
arguments are ignorable, only the origins are compared; otherwise the branch
must be of the same concrete wrapper class, the origins must be in the
subclass relation, and the children must be pairwise below the branch's
children. The recursion into children via Python's `<=` operator (defined in
`doorsuper.py`, outside the excerpt) is modelled from the spec as this same
subtype test. -/
def isLeBranch (sub : Nat → Nat → Bool) : DoorHint → DoorHint → Bool
  | .mk v _ o args, branch =>
    if isArgsIgnorable branch then
      sub o branch.origin
    else
      (v == branch.variant) &&
      sub o branch.origin &&
      leArgs sub args branch.args

/-- The `all(self_child <= branch_child for ... in zip(...))` loop of
`_is_le_branch`: pairwise comparison truncated to the shorter list, exactly as
`zip` truncates. -/
def leArgs (sub : Nat → Nat → Bool) : List DoorHint → List DoorHint → Bool
  | [], _ => true
  | _ :: _, [] => true
  | x :: xs, y :: ys => isLeBranch sub x y && leArgs sub xs ys

end

mutual

/-- Translation of `_TypeHintOriginIsinstanceable._is_equal`: if both parents'
arguments are ignorable, equality is origin-class equality; else differing
signs or differing child counts mean inequality; else equality is pairwise
equality of the children. The recursion into children via Python's `==`
operator (defined in `doorsuper.py`, outside the excerpt) is modelled from the
spec as this same structural equality. -/
def isEqual : DoorHint → DoorHint → Bool
  | .mk v s o args, other =>
    if isArgsIgnorable (.mk v s o args) && isArgsIgnorable other then
      o == other.origin
    else if s != other.sign || args.length != other.args.length then
      false
    else
      eqArgs args other.args

/-- The `all(this_child == that_child for ... in zip(...))` loop of
`_is_equal`: pairwise equality truncated to the shorter list, exactly as
`zip` truncates (it is only reached once the lengths agree). -/
def eqArgs : List DoorHint → List DoorHint → Bool
  | [], _ => true
  | _ :: _, [] => true
  | x :: xs, y :: ys => isEqual x y && eqArgs xs ys

end

/-- The arity error raised by `_TypeHintOriginIsinstanceable._make_args`,
carrying the concrete wrapper class's name and both the expected and the
realized child counts. -/
structure BadArityError where
  variantName : String
  argsLenExpected : Nat
  argsLen : Nat
deriving DecidableEq

/-- The message the source formats for a `BeartypeDoorException` raised by
`_make_args`. -/
def BadArityError.message (e : BadArityError) : String :=
  e.variantName ++ " type must have " ++ toString e.argsLenExpected ++
    " argument(s), but got " ++ toString e.argsLen ++ "."

/-- Translation of `_TypeHintOriginIsinstanceable._make_args`: the child hints
the superclass factory realized are checked against the concrete variant's
expected arity `_args_len_expected`; a mismatch raises, naming the variant
and both counts, and otherwise the realized children are returned unchanged. -/
def makeArgs (variantName : String) (argsLenExpected : Nat)
    (args : List DoorHint) : Except BadArityError (List DoorHint) :=
  if args.length != argsLenExpected then
    .error ⟨variantName, argsLenExpected, args.length⟩
  else
    .ok args

mutual

/-- Structural coherence of a pair of wrapper trees, pairwise down the child
lists: equal signs occur exactly on equal origins, equal signs only on
wrappers of the same concrete class, and wrappers of the same concrete class
carry the same child count (the arity fixed per concrete variant). These are
the invariants the surrounding DOOR factory establishes when it keys the
concrete wrapper class and the origin on the hint's sign; they are hypotheses
here because the factory lives outside the excerpt. -/
def aligned : DoorHint → DoorHint → Bool
  | .mk v s o args, b =>
    decide ((s = b.sign) ↔ (o = b.origin)) &&
    decide (s = b.sign → v = b.variant) &&
    decide (v = b.variant → args.length = b.args.length) &&
    alignedArgs args b.args

/-- Pairwise `aligned`, truncated to the shorter list as `zip` truncates. -/
def alignedArgs : List DoorHint → List DoorHint → Bool
  | [], _ => true
  | _ :: _, [] => true
  | x :: xs, y :: ys => aligned x y && alignedArgs xs ys

end

/-- An exception raised by a getter of `utilpepgeneric.py`: the
caller-supplied exception class (`exception_cls`, modelled as a code) and the
formatted message. -/
structure RaisedException where
  exceptionCls : Nat
  message : String

/-- Translation of `get_hint_pep484585_generic_bases_unerased`: dispatches on
the PEP 585 predicate to one of the two dialect-specific base getters (the
getters and the predicate, defined in `utilpep585.py`/`utilpep484.py` outside
the excerpt, are function parameters), then raises the caller-supplied
exception class if the retrieved tuple is empty, and returns it otherwise. -/
def getGenericBases {α : Type} (is585 : α → Bool) (b585 b484 : α → List α)
    (reprF : α → String) (exCls : Nat) (pre : String) (hint : α) :
    Except RaisedException (List α) :=
  let bases := if is585 hint then b585 hint else b484 hint
  if bases.isEmpty then
    .error ⟨exCls, pre ++ "PEP 484 or 585 generic " ++ reprF hint ++
      " subclasses no superclasses."⟩
  else
    .ok bases

/-- A runtime object, as the origin getters see one: an identity and whether
the object is an isinstanceable class (Python's `isinstance(x, type)`). -/
structure PyObj where
  id : Nat
  isType : Bool
deriving DecidableEq

/-- Translation of `get_hint_pep484585_generic_type_or_none`: the declared
origin attribute's value (as retrieved by `get_hint_pep_origin_or_none`,
defined in `utilpepget.py` outside the excerpt and passed as a parameter) is
returned when it is a class; else the hint itself when it is a class; else
the absent marker. -/
def getGenericTypeOrNone (originOf : PyObj → Option PyObj) (hint : PyObj) :
    Option PyObj :=
  match originOf hint with
  | some o => if o.isType then some o else if hint.isType then some hint else none
  | none => if hint.isType then some hint else none

/-- Translation of `get_hint_pep484585_generic_type`: delegates to the
non-raising variant and raises the caller-supplied exception class when that
variant returns the absent marker. -/
def getGenericType (originOf : PyObj → Option PyObj) (reprF : PyObj → String)
    (exCls : Nat) (pre : String) (hint : PyObj) : Except RaisedException PyObj :=
  match getGenericTypeOrNone originOf hint with
  | none => .error ⟨exCls, pre ++ "PEP 484 or 585 generic " ++ reprF hint ++
      " not generic (i.e., originates from no isinstanceable class)."⟩
  | some t => .ok t

/-- A child wrapper for a plain class such as `int`: origin 7, no children. -/
def childInt : DoorHint := .mk 0 100 7 []

/-- A second child wrapper for a plain class such as `str`: origin 8. -/
def childStr : DoorHint := .mk 0 101 8 []

/-- A child wrapper whose origin is the `typing.Any` marker. -/
def childAny : DoorHint := .mk 0 102 anyOrigin []

/-- A 1-argument wrapper akin to `list[int]`: variant `Args1`, origin 10. -/
def listIntHint : DoorHint := .mk 1 5 10 [childInt]

/-- A wrapper agreeing with `listIntHint` in variant, sign and child but
carrying the unrelated origin 11. -/
def otherOriginHint : DoorHint := .mk 1 5 11 [childInt]

/-- A 2-argument wrapper akin to `dict[int, str]`: variant `Args2`,
origin 12. -/
def dictIntStrHint : DoorHint := .mk 2 6 12 [childInt, childStr]

/-- A 1-argument wrapper with ignorable arguments, akin to `list[Any]`. -/
def listAnyHint : DoorHint := .mk 1 5 10 [childAny]

/-- A 1-argument wrapper carrying an empty child tuple. -/
def emptyArgsHint : DoorHint := .mk 1 5 10 []

/-- The minimal subclass relation: every class is a subclass of itself and of
nothing else. -/
def subId : Nat → Nat → Bool := Nat.beq

theorem DoorHint.one_le_sizeOf (a : DoorHint) : 1 ≤ sizeOf a := by
  cases a with
  | mk v s o args => simp [DoorHint.mk.sizeOf_spec]; omega

theorem sizeOf_lt_of_mem_args {x a : DoorHint} (h : x ∈ a.args) :
    sizeOf x < sizeOf a := by
  cases a with
  | mk v s o args =>
    have h2 := List.sizeOf_lt_of_mem (show x ∈ args from h)
    simp [DoorHint.mk.sizeOf_spec]
    omega

theorem isLeBranch_def (sub : Nat → Nat → Bool) (a b : DoorHint) :
    isLeBranch sub a b =
      if isArgsIgnorable b then sub a.origin b.origin
      else
        (a.variant == b.variant) && sub a.origin b.origin &&
        leArgs sub a.args b.args := by
  cases a
  rfl

theorem isEqual_def (a b : DoorHint) :
    isEqual a b =
      if isArgsIgnorable a && isArgsIgnorable b then a.origin == b.origin
      else if a.sign != b.sign || a.args.length != b.args.length then false
      else eqArgs a.args b.args := by
  cases a
  rfl

theorem aligned_def (a b : DoorHint) :
    aligned a b =
      (decide ((a.sign = b.sign) ↔ (a.origin = b.origin)) &&
       decide (a.sign = b.sign → a.variant = b.variant) &&
       decide (a.variant = b.variant → a.args.length = b.args.length) &&
       alignedArgs a.args b.args) := by
  cases a
  rfl

theorem isArgsIgnorable_iff (h : DoorHint) :
    isArgsIgnorable h = true ↔ ∀ c ∈ h.args, c.origin = anyOrigin := by
  simp [isArgsIgnorable]

theorem leArgs_eq_zip_all (sub : Nat → Nat → Bool) (xs ys : List DoorHint) :
    leArgs sub xs ys = (xs.zip ys).all fun p => isLeBranch sub p.1 p.2 := by
  induction xs generalizing ys with
  | nil => cases ys <;> simp [leArgs]
  | cons x xs ih =>
    cases ys with
    | nil => simp [leArgs]
    | cons y ys => simp [leArgs, ih]

theorem eqArgs_eq_zip_all (xs ys : List DoorHint) :
    eqArgs xs ys = (xs.zip ys).all fun p => isEqual p.1 p.2 := by
  induction xs generalizing ys with
  | nil => cases ys <;> simp [eqArgs]
  | cons x xs ih =>
    cases ys with
    | nil => simp [eqArgs]
    | cons y ys => simp [eqArgs, ih]

theorem isLeBranch_sub_origin (sub : Nat → Nat → Bool) {a b : DoorHint}
    (h : isLeBranch sub a b = true) : sub a.origin b.origin = true := by
  rw [isLeBranch_def] at h
  by_cases hib : isArgsIgnorable b = true
  · simpa [hib] using h
  · simp [hib, Bool.and_eq_true] at h
    exact h.1.2

theorem isEqual_origin {a b : DoorHint} (hal : aligned a b = true)
    (h : isEqual a b = true) : a.origin = b.origin := by
  rw [aligned_def, Bool.and_eq_true, Bool.and_eq_true, Bool.and_eq_true] at hal
  obtain ⟨⟨⟨hso, _⟩, _⟩, _⟩ := hal
  rw [decide_eq_true_iff] at hso
  rw [isEqual_def] at h
  by_cases hii : (isArgsIgnorable a && isArgsIgnorable b) = true
  · rw [if_pos hii] at h
    simpa using h
  · rw [if_neg hii] at h
    by_cases hguard : (a.sign != b.sign || a.args.length != b.args.length) = true
    · rw [if_pos hguard] at h; exact absurd h (by simp)
    · have hs : a.sign = b.sign := by
        simp [Bool.or_eq_true] at hguard
        exact hguard.1
      exact hso.mp hs

theorem isLeBranch_ignorable (sub : Nat → Nat → Bool) {b : DoorHint}
    (a : DoorHint) (hib : isArgsIgnorable b = true) :
    isLeBranch sub a b = sub a.origin b.origin := by
  rw [isLeBranch_def, if_pos hib]

theorem isEqual_ignorable {a b : DoorHint} (hia : isArgsIgnorable a = true)
    (hib : isArgsIgnorable b = true) :
    isEqual a b = (a.origin == b.origin) := by
  rw [isEqual_def, if_pos (by simp [hia, hib])]

theorem isLeBranch_elim (sub : Nat → Nat → Bool) {a b : DoorHint}
    (hib : isArgsIgnorable b = false) (h : isLeBranch sub a b = true) :
    a.variant = b.variant ∧ sub a.origin b.origin = true ∧
      leArgs sub a.args b.args = true := by
  rw [isLeBranch_def, if_neg (by simp [hib])] at h
  simp only [Bool.and_eq_true, beq_iff_eq] at h
  exact ⟨h.1.1, h.1.2, h.2⟩

theorem isLeBranch_intro (sub : Nat → Nat → Bool) {a b : DoorHint}
    (hv : a.variant = b.variant) (ho : sub a.origin b.origin = true)
    (hargs : leArgs sub a.args b.args = true) :
    isLeBranch sub a b = true := by
  rw [isLeBranch_def]
  by_cases hib : isArgsIgnorable b = true
  · rw [if_pos hib]; exact ho
  · rw [if_neg hib]; simp [hv, ho, hargs]

theorem isEqual_elim {a b : DoorHint}
    (hii : ¬(isArgsIgnorable a = true ∧ isArgsIgnorable b = true))
    (h : isEqual a b = true) :
    a.sign = b.sign ∧ a.args.length = b.args.length ∧
      eqArgs a.args b.args = true := by
  rw [isEqual_def, if_neg (by simpa [Bool.and_eq_true] using hii)] at h
  by_cases hguard : (a.sign != b.sign || a.args.length != b.args.length) = true
  · rw [if_pos hguard] at h; exact absurd h (by simp)
  · rw [if_neg hguard] at h
    simp only [Bool.or_eq_true, bne_iff_ne, not_or, not_not, ne_eq,
      Decidable.not_not] at hguard
    exact ⟨hguard.1, hguard.2, h⟩

theorem isEqual_intro_structural {a b : DoorHint}
    (hii : ¬(isArgsIgnorable a = true ∧ isArgsIgnorable b = true))
    (hs : a.sign = b.sign) (hl : a.args.length = b.args.length)
    (he : eqArgs a.args b.args = true) :
    isEqual a b = true := by
  rw [isEqual_def, if_neg (by simpa [Bool.and_eq_true] using hii),
    if_neg (by simp [hs, hl])]
  exact he

theorem leArgs_any_forces (sub : Nat → Nat → Bool)
    (hany : ∀ c, sub anyOrigin c = true → c = anyOrigin) :
    ∀ (xs ys : List DoorHint), ys.length ≤ xs.length →
      (∀ x ∈ xs, x.origin = anyOrigin) → leArgs sub xs ys = true →
      ∀ y ∈ ys, y.origin = anyOrigin := by
  intro xs
  induction xs with
  | nil =>
    intro ys hlen _ _ y hy
    cases ys with
    | nil => simp at hy
    | cons y0 ys => simp at hlen
  | cons x xs ih =>
    intro ys hlen hall hle y hy
    cases ys with
    | nil => simp at hy
    | cons y0 ys =>
      simp only [leArgs, Bool.and_eq_true] at hle
      rcases List.mem_cons.mp hy with rfl | hy'
      · have hsub := isLeBranch_sub_origin sub hle.1
        rw [hall x (by simp)] at hsub
        exact hany _ hsub
      · exact ih ys (by simpa using hlen)
          (fun x' hx' => hall x' (by simp [hx'])) hle.2 y hy'

theorem eqArgs_any_forces :
    ∀ (xs ys : List DoorHint), ys.length ≤ xs.length →
      alignedArgs xs ys = true →
      (∀ x ∈ xs, x.origin = anyOrigin) → eqArgs xs ys = true →
      ∀ y ∈ ys, y.origin = anyOrigin := by
  intro xs
  induction xs with
  | nil =>
    intro ys hlen _ _ _ y hy
    cases ys with
    | nil => simp at hy
    | cons y0 ys => simp at hlen
  | cons x xs ih =>
    intro ys hlen hal hall heq y hy
    cases ys with
    | nil => simp at hy
    | cons y0 ys =>
      simp only [eqArgs, alignedArgs, Bool.and_eq_true] at heq hal
      rcases List.mem_cons.mp hy with rfl | hy'
      · have := isEqual_origin hal.1 heq.1
        rw [hall x (by simp)] at this
        exact this.symm
      · exact ih ys (by simpa using hlen) hal.2
          (fun x' hx' => hall x' (by simp [hx'])) heq.2 y hy'

theorem leArgs_both_of_eqArgs (sub : Nat → Nat → Bool) :
    ∀ (xs ys : List DoorHint),
      (∀ x ∈ xs, ∀ y ∈ ys, aligned x y = true →
        (isEqual x y = true ↔
          (isLeBranch sub x y = true ∧ isLeBranch sub y x = true))) →
      alignedArgs xs ys = true → eqArgs xs ys = true →
      leArgs sub xs ys = true ∧ leArgs sub ys xs = true := by
  intro xs
  induction xs with
  | nil =>
    intro ys _ _ _
    cases ys with
    | nil => exact ⟨rfl, rfl⟩
    | cons y0 ys => exact ⟨rfl, rfl⟩
  | cons x xs ih =>
    intro ys H hal heq
    cases ys with
    | nil => exact ⟨rfl, rfl⟩
    | cons y0 ys =>
      simp only [eqArgs, alignedArgs, Bool.and_eq_true] at heq hal
      have hxy := (H x (by simp) y0 (by simp) hal.1).mp heq.1
      have hrest := ih ys
        (fun x' hx' y' hy' => H x' (by simp [hx']) y' (by simp [hy']))
        hal.2 heq.2
      refine ⟨?_, ?_⟩ <;> simp only [leArgs, Bool.and_eq_true]
      · exact ⟨hxy.1, hrest.1⟩
      · exact ⟨hxy.2, hrest.2⟩

theorem eqArgs_of_leArgs_both (sub : Nat → Nat → Bool) :
    ∀ (xs ys : List DoorHint),
      (∀ x ∈ xs, ∀ y ∈ ys, aligned x y = true →
        (isEqual x y = true ↔
          (isLeBranch sub x y = true ∧ isLeBranch sub y x = true))) →
      alignedArgs xs ys = true →
      leArgs sub xs ys = true → leArgs sub ys xs = true →
      eqArgs xs ys = true := by
  intro xs
  induction xs with
  | nil =>
    intro ys _ _ _ _
    cases ys with
    | nil => rfl
    | cons y0 ys => rfl
  | cons x xs ih =>
    intro ys H hal h1 h2
    cases ys with
    | nil => rfl
    | cons y0 ys =>
      simp only [leArgs, alignedArgs, Bool.and_eq_true] at h1 h2 hal
      have hxy := (H x (by simp) y0 (by simp) hal.1).mpr ⟨h1.1, h2.1⟩
      have hrest := ih ys
        (fun x' hx' y' hy' => H x' (by simp [hx']) y' (by simp [hy']))
        hal.2 h1.2 h2.2
      simp only [eqArgs, Bool.and_eq_true]
      exact ⟨hxy, hrest⟩

theorem eqArgs_any_forces_rev :
    ∀ (xs ys : List DoorHint), xs.length ≤ ys.length →
      alignedArgs xs ys = true →
      (∀ y ∈ ys, y.origin = anyOrigin) → eqArgs xs ys = true →
      ∀ x ∈ xs, x.origin = anyOrigin := by
  intro xs
  induction xs with
  | nil =>
    intro ys _ _ _ _ x hx
    simp at hx
  | cons x xs ih =>
    intro ys hlen hal hall heq x' hx'
    cases ys with
    | nil => simp at hlen
    | cons y0 ys =>
      simp only [eqArgs, alignedArgs, Bool.and_eq_true] at heq hal
      rcases List.mem_cons.mp hx' with rfl | hx''
      · have := isEqual_origin hal.1 heq.1
        rw [hall y0 (by simp)] at this
        exact this
      · exact ih ys (by simpa using hlen) hal.2
          (fun y' hy' => hall y' (by simp [hy'])) heq.2 x' hx''

theorem isEqual_iff_mutual_le_aux (sub : Nat → Nat → Bool)
    (hrefl : ∀ c, sub c c = true)
    (hanti : ∀ c d, sub c d = true → sub d c = true → c = d)
    (hany : ∀ c, sub anyOrigin c = true → c = anyOrigin) :
    ∀ (n : Nat) (a b : DoorHint), sizeOf a ≤ n → aligned a b = true →
      (isEqual a b = true ↔
        (isLeBranch sub a b = true ∧ isLeBranch sub b a = true)) := by
  intro n
  induction n with
  | zero =>
    intro a b hsz _
    exact absurd hsz (by have := DoorHint.one_le_sizeOf a; omega)
  | succ n ih =>
    intro a b hsz hal
    have hal' := hal
    rw [aligned_def] at hal'
    simp only [Bool.and_eq_true, decide_eq_true_eq] at hal'
    obtain ⟨⟨⟨hso, hsv⟩, hvl⟩, hargs⟩ := hal'
    have Hpair : ∀ x ∈ a.args, ∀ y ∈ b.args, aligned x y = true →
        (isEqual x y = true ↔
          (isLeBranch sub x y = true ∧ isLeBranch sub y x = true)) := by
      intro x hx y hy hxy
      have := sizeOf_lt_of_mem_args hx
      exact ih x y (by omega) hxy
    by_cases hia : isArgsIgnorable a = true
    · by_cases hib : isArgsIgnorable b = true
      · -- both operands have ignorable arguments
        rw [isEqual_ignorable hia hib, isLeBranch_ignorable sub a hib,
          isLeBranch_ignorable sub b hia]
        constructor
        · intro h
          have ho : a.origin = b.origin := by simpa using h
          rw [ho]
          exact ⟨hrefl _, hrefl _⟩
        · intro ⟨h1, h2⟩
          simpa using hanti _ _ h1 h2
      · -- a ignorable, b not: both sides are false
        have hxsany : ∀ x ∈ a.args, x.origin = anyOrigin :=
          (isArgsIgnorable_iff a).mp hia
        constructor
        · intro h
          obtain ⟨hs, hl, he⟩ := isEqual_elim (by simp [hib]) h
          have := eqArgs_any_forces a.args b.args (by omega) hargs hxsany he
          exact absurd ((isArgsIgnorable_iff b).mpr this) (by simp [hib])
        · intro ⟨h1, _⟩
          obtain ⟨hv, _, hle⟩ := isLeBranch_elim sub (by simp [hib]) h1
          have hl := hvl hv
          have := leArgs_any_forces sub hany a.args b.args (by omega) hxsany hle
          exact absurd ((isArgsIgnorable_iff b).mpr this) (by simp [hib])
    · by_cases hib : isArgsIgnorable b = true
      · -- b ignorable, a not: both sides are false
        have hysany : ∀ y ∈ b.args, y.origin = anyOrigin :=
          (isArgsIgnorable_iff b).mp hib
        constructor
        · intro h
          obtain ⟨hs, hl, he⟩ := isEqual_elim (by simp [hia]) h
          have := eqArgs_any_forces_rev a.args b.args (by omega) hargs hysany he
          exact absurd ((isArgsIgnorable_iff a).mpr this) (by simp [hia])
        · intro ⟨_, h2⟩
          obtain ⟨hv, _, hle⟩ := isLeBranch_elim sub (by simp [hia]) h2
          have hl := hvl hv.symm
          have := leArgs_any_forces sub hany b.args a.args (by omega) hysany hle
          exact absurd ((isArgsIgnorable_iff a).mpr this) (by simp [hia])
      · -- neither ignorable
        constructor
        · intro h
          obtain ⟨hs, hl, he⟩ := isEqual_elim (by simp [hia]) h
          have ho : a.origin = b.origin := hso.mp hs
          have hv : a.variant = b.variant := hsv hs
          have hles := leArgs_both_of_eqArgs sub a.args b.args Hpair hargs he
          exact ⟨isLeBranch_intro sub hv (ho ▸ hrefl _) hles.1,
            isLeBranch_intro sub hv.symm (ho ▸ hrefl _) hles.2⟩
        · intro ⟨h1, h2⟩
          obtain ⟨hv, ho1, hle1⟩ := isLeBranch_elim sub (by simp [hib]) h1
          obtain ⟨_, ho2, hle2⟩ := isLeBranch_elim sub (by simp [hia]) h2
          have ho : a.origin = b.origin := hanti _ _ ho1 ho2
          have hs : a.sign = b.sign := hso.mpr ho
          have hl : a.args.length = b.args.length := hvl hv
          have he := eqArgs_of_leArgs_both sub a.args b.args Hpair hargs hle1 hle2
          exact isEqual_intro_structural (by simp [hia]) hs hl he


/-- C1 counterexample: with the identity-only subclass relation, the two
wrappers `listIntHint` and `otherOriginHint` (same variant, same sign, same
child, different origins) are reported equal by the direct `_is_equal`
implementation — whose structural branch never consults origins — yet
`otherOriginHint` is not a supertype of `listIntHint`, so the directly
implemented equality does not agree with the relation derived from mutual
subtyping on all inputs. -/
theorem equals_vs_mutual_subtype_cex :
    isEqual listIntHint otherOriginHint = true ∧
    isLeBranch subId listIntHint otherOriginHint = false := by decide

/-- C1, amended: `_is_equal` agrees with mutual `_is_le_branch` on every pair
of wrappers provided the subclass relation is reflexive and antisymmetric,
`typing.Any` is below no real class, and the pair is `aligned` (signs
determine origins and concrete classes, and each concrete class fixes one
child count — the invariants the wrapper factory establishes). -/
theorem equals_iff_mutual_subtype_of_aligned (sub : Nat → Nat → Bool)
    (hrefl : ∀ c, sub c c = true)
    (hanti : ∀ c d, sub c d = true → sub d c = true → c = d)
    (hany : ∀ c, sub anyOrigin c = true → c = anyOrigin)
    (a b : DoorHint) (hal : aligned a b = true) :
    isEqual a b = true ↔
      (isLeBranch sub a b = true ∧ isLeBranch sub b a = true) :=
  isEqual_iff_mutual_le_aux sub hrefl hanti hany (sizeOf a) a b
    (Nat.le_refl _) hal

/-- C1 witness: the amended equivalence applied at `listIntHint` and the
identity-only subclass relation. -/
theorem equals_iff_mutual_subtype_witness :
    isEqual listIntHint listIntHint = true ↔
      (isLeBranch subId listIntHint listIntHint = true ∧
       isLeBranch subId listIntHint listIntHint = true) :=
  equals_iff_mutual_subtype_of_aligned subId
    (fun c => by simp [subId])
    (fun c d h1 _ => Nat.eq_of_beq_eq_true h1)
    (fun c h => (Nat.eq_of_beq_eq_true h).symm)
    listIntHint listIntHint (by decide)

/-- C2: when the right operand's arguments are not ignorable, `_is_le_branch`
holds exactly when the operands are of the same concrete wrapper class, the
origins are in the subclass relation, and each child of the left operand is
below the corresponding child of the right operand, the pairs truncated to
the shorter child tuple as `zip` truncates (different lengths raise nothing
at this layer). -/
theorem subtype_non_ignorable_iff (sub : Nat → Nat → Bool) (a b : DoorHint)
    (hb : isArgsIgnorable b = false) :
    isLeBranch sub a b = true ↔
      (a.variant = b.variant ∧ sub a.origin b.origin = true ∧
        ∀ p ∈ a.args.zip b.args, isLeBranch sub p.1 p.2 = true) := by
  constructor
  · intro h
    obtain ⟨hv, ho, hle⟩ := isLeBranch_elim sub hb h
    refine ⟨hv, ho, ?_⟩
    rw [leArgs_eq_zip_all] at hle
    simpa [List.all_eq_true] using hle
  · intro ⟨hv, ho, hz⟩
    refine isLeBranch_intro sub hv ho ?_
    rw [leArgs_eq_zip_all]
    simpa [List.all_eq_true] using hz

/-- C2 witness: the characterization applied to `list[int] <= list[int]`. -/
theorem subtype_non_ignorable_iff_witness :
    isLeBranch subId listIntHint listIntHint = true ↔
      (listIntHint.variant = listIntHint.variant ∧
        subId listIntHint.origin listIntHint.origin = true ∧
        ∀ p ∈ listIntHint.args.zip listIntHint.args,
          isLeBranch subId p.1 p.2 = true) :=
  subtype_non_ignorable_iff subId listIntHint listIntHint (by decide)

/-- C3: the overridden `_is_equal` holds exactly along its three-stage
structure: origin equality when both operands' arguments are ignorable; and
otherwise sign equality, child-count equality and order-sensitive pairwise
child equality. -/
theorem equality_structural_characterization (a b : DoorHint) :
    isEqual a b = true ↔
      ((isArgsIgnorable a = true ∧ isArgsIgnorable b = true ∧
          a.origin = b.origin) ∨
        (¬(isArgsIgnorable a = true ∧ isArgsIgnorable b = true) ∧
          a.sign = b.sign ∧ a.args.length = b.args.length ∧
          ∀ p ∈ a.args.zip b.args, isEqual p.1 p.2 = true)) := by
  by_cases hii : isArgsIgnorable a = true ∧ isArgsIgnorable b = true
  · rw [isEqual_ignorable hii.1 hii.2]
    simp [hii]
  · constructor
    · intro h
      obtain ⟨hs, hl, he⟩ := isEqual_elim hii h
      rw [eqArgs_eq_zip_all] at he
      exact Or.inr ⟨hii, hs, hl, by simpa [List.all_eq_true] using he⟩
    · intro h
      rcases h with ⟨ha, hb, _⟩ | ⟨_, hs, hl, hz⟩
      · exact absurd ⟨ha, hb⟩ hii
      · refine isEqual_intro_structural hii hs hl ?_
        rw [eqArgs_eq_zip_all]
        simpa [List.all_eq_true] using hz

/-- C4: whenever the right operand's arguments are ignorable and the origins
are in the subclass relation, `_is_le_branch` returns true, whatever the left
operand's children are. -/
theorem subtype_absorbed_by_ignorable (sub : Nat → Nat → Bool)
    (a b : DoorHint) (hb : isArgsIgnorable b = true)
    (ho : sub a.origin b.origin = true) :
    isLeBranch sub a b = true := by
  rw [isLeBranch_ignorable sub a hb]
  exact ho

/-- C4 witness: `list[int] <= list[Any]` under the identity-only subclass
relation. -/
theorem subtype_absorbed_by_ignorable_witness :
    isLeBranch subId listIntHint listAnyHint = true :=
  subtype_absorbed_by_ignorable subId listIntHint listAnyHint
    (by decide) (by decide)

/-- C5: for an arity-fixed variant expecting 1, 2 or 3 children,
`_make_args` with a realized child count differing from the expected arity
returns the `BadArityError` naming the variant and both counts — in
particular for zero realized children, which are not silently filled with
the ignorable marker — and a successful result is exactly the realized
children with the expected count, so no malformed wrapper escapes. -/
theorem make_args_arity_check (variantName : String) (argsLenExpected : Nat)
    (args : List DoorHint)
    (hexp : argsLenExpected = 1 ∨ argsLenExpected = 2 ∨ argsLenExpected = 3) :
    (args.length ≠ argsLenExpected →
      makeArgs variantName argsLenExpected args =
        Except.error ⟨variantName, argsLenExpected, args.length⟩) ∧
    (args = [] →
      makeArgs variantName argsLenExpected args =
        Except.error ⟨variantName, argsLenExpected, 0⟩) ∧
    (∀ e, makeArgs variantName argsLenExpected args = Except.error e →
      e.variantName = variantName ∧ e.argsLenExpected = argsLenExpected ∧
        e.argsLen = args.length) ∧
    (∀ res, makeArgs variantName argsLenExpected args = Except.ok res →
      res = args ∧ args.length = argsLenExpected) := by
  refine ⟨?_, ?_, ?_, ?_⟩
  · intro hne
    simp [makeArgs, hne]
  · intro h0
    subst h0
    have hne : (0 : Nat) ≠ argsLenExpected := by omega
    simp only [makeArgs, List.length_nil]
    rw [if_pos (by simpa [bne_iff_ne] using hne)]
  · intro e he
    by_cases hne : args.length = argsLenExpected
    · simp [makeArgs, hne] at he
    · simp [makeArgs, hne] at he
      simp [← he]
  · intro res hres
    by_cases hne : args.length = argsLenExpected
    · simp [makeArgs, hne] at hres
      exact ⟨hres.symm, hne⟩
    · simp [makeArgs, hne] at hres

/-- C5 witness: a 2-argument variant materialized from zero children raises
the arity error naming both counts, and the error for three children names
3. -/
theorem make_args_arity_check_witness :
    (List.length ([] : List DoorHint) ≠ 2 →
      makeArgs "Args2" 2 [] = Except.error ⟨"Args2", 2, 0⟩) ∧
    (([] : List DoorHint) = [] → makeArgs "Args2" 2 [] = Except.error ⟨"Args2", 2, 0⟩) ∧
    (∀ e, makeArgs "Args2" 2 ([] : List DoorHint) = Except.error e →
      e.variantName = "Args2" ∧ e.argsLenExpected = 2 ∧ e.argsLen = 0) ∧
    (∀ res, makeArgs "Args2" 2 ([] : List DoorHint) = Except.ok res →
      res = [] ∧ List.length ([] : List DoorHint) = 2) :=
  make_args_arity_check "Args2" 2 [] (Or.inr (Or.inl rfl))

/-- C7: two wrappers of distinct arity-fixed leaf variants whose child
counts respect their variants' arities, both with non-ignorable arguments,
are unequal and incomparable in both directions, and no comparison raises
(the comparators are total functions returning `false`). -/
theorem variant_mismatch_incomparable (sub : Nat → Nat → Bool)
    (a b : DoorHint)
    (_ha3 : a.variant = 1 ∨ a.variant = 2 ∨ a.variant = 3)
    (_hb3 : b.variant = 1 ∨ b.variant = 2 ∨ b.variant = 3)
    (hvne : a.variant ≠ b.variant)
    (hwa : a.args.length = a.variant) (hwb : b.args.length = b.variant)
    (hia : isArgsIgnorable a = false) (hib : isArgsIgnorable b = false) :
    isEqual a b = false ∧ isLeBranch sub a b = false ∧
      isLeBranch sub b a = false := by
  refine ⟨?_, ?_, ?_⟩
  · rw [isEqual_def, if_neg (by simp [hia]), if_pos]
    simp only [Bool.or_eq_true, bne_iff_ne, ne_eq]
    right
    omega
  · rw [isLeBranch_def, if_neg (by simp [hib])]
    simp [hvne]
  · rw [isLeBranch_def, if_neg (by simp [hia])]
    simp [Ne.symm hvne]

/-- C7 witness: a 1-argument wrapper and a 2-argument wrapper, both with
non-ignorable arguments, are unequal and incomparable both ways. -/
theorem variant_mismatch_incomparable_witness :
    isEqual listIntHint dictIntStrHint = false ∧
    isLeBranch subId listIntHint dictIntStrHint = false ∧
    isLeBranch subId dictIntStrHint listIntHint = false :=
  variant_mismatch_incomparable subId listIntHint dictIntStrHint
    (Or.inl rfl) (Or.inr (Or.inl rfl)) (by decide) (by decide) (by decide)
    (by decide) (by decide)

/-- C10 counterexample: a wrapper with an empty child tuple on the right of
`_is_equal` does not reduce the comparison to its origin class alone — a
left operand with an unignorable child and the very same origin is reported
unequal, because the structural branch compares child counts. -/
theorem empty_args_equality_not_origin_only_cex :
    isArgsIgnorable emptyArgsHint = true ∧
    listIntHint.origin = emptyArgsHint.origin ∧
    isEqual listIntHint emptyArgsHint = false := by decide

/-- C10, amended: a wrapper with an empty child tuple is vacuously
args-ignorable; a subtype comparison with it on the right reduces to the
origin-class subclass check alone, and an equality comparison with it on the
right reduces to origin-class equality provided the left operand's arguments
are also ignorable. -/
theorem empty_args_ignorable_comparisons (sub : Nat → Nat → Bool)
    (a y : DoorHint) (hy : y.args = []) :
    isArgsIgnorable y = true ∧
    isLeBranch sub a y = sub a.origin y.origin ∧
    (isArgsIgnorable a = true → (isEqual a y = true ↔ a.origin = y.origin)) := by
  have hyi : isArgsIgnorable y = true := by
    simp [isArgsIgnorable, hy]
  refine ⟨hyi, isLeBranch_ignorable sub a hyi, ?_⟩
  intro ha
  rw [isEqual_ignorable ha hyi]
  simp

/-- C10 witness: the amended statement at a concrete empty-args wrapper. -/
theorem empty_args_ignorable_comparisons_witness :
    isArgsIgnorable emptyArgsHint = true ∧
    isLeBranch subId listIntHint emptyArgsHint =
      subId listIntHint.origin emptyArgsHint.origin ∧
    (isArgsIgnorable listIntHint = true →
      (isEqual listIntHint emptyArgsHint = true ↔
        listIntHint.origin = emptyArgsHint.origin)) :=
  empty_args_ignorable_comparisons subId listIntHint emptyArgsHint rfl

/-- C6: the unerased pseudo-superclass extractor either returns a non-empty
tuple, or — exactly when the dialect-chosen retrieval comes back empty —
raises the caller-supplied exception class with a message that begins with
the caller-supplied message prefix and contains the offending hint's
representation; it never returns an empty tuple. -/
theorem generic_bases_nonempty_or_raises {α : Type} (is585 : α → Bool)
    (b585 b484 : α → List α) (reprF : α → String) (exCls : Nat)
    (pre : String) (hint : α) :
    (∀ l, getGenericBases is585 b585 b484 reprF exCls pre hint =
        Except.ok l → l ≠ []) ∧
    ((if is585 hint then b585 hint else b484 hint) = [] →
      ∃ e, getGenericBases is585 b585 b484 reprF exCls pre hint =
          Except.error e ∧
        e.exceptionCls = exCls ∧
        (∃ rest, e.message = pre ++ rest) ∧
        (∃ s t, e.message = s ++ reprF hint ++ t)) := by
  constructor
  · intro l hl
    simp only [getGenericBases] at hl
    by_cases hb : (if is585 hint then b585 hint else b484 hint).isEmpty = true
    · rw [if_pos hb] at hl
      exact absurd hl (by simp)
    · rw [if_neg hb] at hl
      cases hl
      simpa [List.isEmpty_iff] using hb
  · intro hb
    refine ⟨⟨exCls, pre ++ "PEP 484 or 585 generic " ++ reprF hint ++
      " subclasses no superclasses."⟩, ?_, rfl, ?_, ?_⟩
    · simp [getGenericBases, hb]
    · exact ⟨"PEP 484 or 585 generic " ++ reprF hint ++
        " subclasses no superclasses.", by simp [String.append_assoc]⟩
    · exact ⟨pre ++ "PEP 484 or 585 generic ", " subclasses no superclasses.",
        by simp [String.append_assoc]⟩

/-- C9: the extractor tests the PEP 585 ("modern") predicate first and uses
the PEP 585 retrieval when it holds, falling back to the PEP 484 ("legacy")
retrieval otherwise; when the chosen retrieval is non-empty the extractor's
result is exactly that retrieval's output. -/
theorem generic_bases_dialect_dispatch {α : Type} (is585 : α → Bool)
    (b585 b484 : α → List α) (reprF : α → String) (exCls : Nat)
    (pre : String) (hint : α)
    (hne : (if is585 hint then b585 hint else b484 hint) ≠ []) :
    getGenericBases is585 b585 b484 reprF exCls pre hint =
      Except.ok (if is585 hint then b585 hint else b484 hint) ∧
    (is585 hint = true →
      getGenericBases is585 b585 b484 reprF exCls pre hint =
        Except.ok (b585 hint)) ∧
    (is585 hint = false →
      getGenericBases is585 b585 b484 reprF exCls pre hint =
        Except.ok (b484 hint)) := by
  have hmain : getGenericBases is585 b585 b484 reprF exCls pre hint =
      Except.ok (if is585 hint then b585 hint else b484 hint) := by
    simp [getGenericBases, hne]
  refine ⟨hmain, ?_, ?_⟩
  · intro h5
    rw [hmain, if_pos h5]
  · intro h5
    rw [hmain, if_neg (by simp [h5])]

/-- C9 witness: the dispatch applied to a hint classified as PEP 585 with a
singleton base tuple. -/
theorem generic_bases_dialect_dispatch_witness :
    getGenericBases (fun _ => true) (fun _ => [7]) (fun _ => [])
        (fun n => toString n) 3 "pre: " 5 =
      Except.ok (if (fun (_ : Nat) => true) 5 then [7] else []) ∧
    ((fun (_ : Nat) => true) 5 = true →
      getGenericBases (fun _ => true) (fun _ => [7]) (fun _ => [])
          (fun n => toString n) 3 "pre: " 5 = Except.ok [7]) ∧
    ((fun (_ : Nat) => true) 5 = false →
      getGenericBases (fun _ => true) (fun _ => [7]) (fun _ => [])
          (fun n => toString n) 3 "pre: " 5 = Except.ok []) :=
  generic_bases_dialect_dispatch (fun _ => true) (fun _ => [7]) (fun _ => [])
    (fun n => toString n) 3 "pre: " 5 (by simp)

/-- C8: the non-raising origin query returns, in priority order, the declared
origin attribute's value when that value is a class (even when the hint is
itself a class), else the hint itself when it is a class, else the absent
marker, and it is a total function raising nothing; the raising query returns
the same class in the first two cases and raises the caller-supplied
exception class exactly when the non-raising query returns the absent
marker. -/
theorem generic_type_resolution (originOf : PyObj → Option PyObj)
    (reprF : PyObj → String) (exCls : Nat) (pre : String) (hint : PyObj) :
    (∀ o, originOf hint = some o → o.isType = true →
      getGenericTypeOrNone originOf hint = some o) ∧
    ((∀ o, originOf hint = some o → o.isType = false) → hint.isType = true →
      getGenericTypeOrNone originOf hint = some hint) ∧
    ((∀ o, originOf hint = some o → o.isType = false) → hint.isType = false →
      getGenericTypeOrNone originOf hint = none) ∧
    (∀ t, getGenericTypeOrNone originOf hint = some t →
      getGenericType originOf reprF exCls pre hint = Except.ok t) ∧
    (getGenericTypeOrNone originOf hint = none →
      ∃ e, getGenericType originOf reprF exCls pre hint = Except.error e ∧
        e.exceptionCls = exCls) := by
  refine ⟨?_, ?_, ?_, ?_, ?_⟩
  · intro o ho hty
    simp [getGenericTypeOrNone, ho, hty]
  · intro hno hty
    cases ho : originOf hint with
    | none => simp [getGenericTypeOrNone, ho, hty]
    | some o => simp [getGenericTypeOrNone, ho, hno o ho, hty]
  · intro hno hty
    cases ho : originOf hint with
    | none => simp [getGenericTypeOrNone, ho, hty]
    | some o => simp [getGenericTypeOrNone, ho, hno o ho, hty]
  · intro t ht
    simp [getGenericType, ht]
  · intro ht
    refine ⟨⟨exCls, pre ++ "PEP 484 or 585 generic " ++ reprF hint ++
      " not generic (i.e., originates from no isinstanceable class)."⟩,
      ?_, rfl⟩
    simp [getGenericType, ht]

end Beartype
